import Mathlib

/-!
Verification of the cgaid chat-log tailing and alerting pipeline.

Shallow embedding of the Rust sources (src/main.rs, src/config.rs,
src/chat/record.rs).  Text is modelled as `List Char` (the file content is
modelled as already decoded from GB18030; offsets count in the same units).
External library behaviour (chrono time parsing, the regex crate, BufRead
line splitting, BTreeSet collection) is modelled at the interface, on the
fragment exercised by the program, with a doc comment on each such model.
-/

/-- Decidable equality for `Except`, used to settle concrete evaluations of
the fallible operations by `decide`. -/
instance {ε α : Type} [DecidableEq ε] [DecidableEq α] : DecidableEq (Except ε α) :=
  fun x y =>
    match x, y with
    | .ok a, .ok b =>
      if h : a = b then isTrue (by rw [h]) else isFalse (by intro hc; cases hc; exact h rfl)
    | .error a, .error b =>
      if h : a = b then isTrue (by rw [h]) else isFalse (by intro hc; cases hc; exact h rfl)
    | .ok _, .error _ => isFalse (by intro hc; cases hc)
    | .error _, .ok _ => isFalse (by intro hc; cases hc)

namespace Cgaid

/-- Whitespace predicate used by `str::trim` / chrono's numeric-field
whitespace skipping.  The ASCII subset suffices for every input considered
here. -/
def isWS (c : Char) : Bool := c.isWhitespace

/-- Left trim: `str::trim_start`. -/
def trimL (s : List Char) : List Char := s.dropWhile isWS

/-- Right trim: `str::trim_end`. -/
def trimR (s : List Char) : List Char := ((s.reverse.dropWhile isWS)).reverse

/-- `str::trim`: drop whitespace from both ends. -/
def trim (s : List Char) : List Char := trimR (trimL s)

/-- `str::splitn(2, sep)`: the text before the first occurrence of `sep`,
and, when `sep` occurs, the whole remainder after it. -/
def splitFirst (sep : Char) : List Char → List Char × Option (List Char)
  | [] => ([], none)
  | c :: t =>
    if c = sep then ([], some t)
    else
      let r := splitFirst sep t
      (c :: r.1, r.2)

/-- Chat channel, from src/chat/record.rs (enum `Channel`). -/
inductive Channel where
  | World
  | Region
  | Group
  | Common
deriving DecidableEq, Repr

/-- `FromStr for Channel` (src/chat/record.rs lines 23-33): a total mapping,
every unrecognized tag falls back to `Common`; the Rust impl always returns
`Ok`, so `.ok()` on it is always `Some` — modelled by returning `some`
unconditionally. -/
def Channel.fromStrE (s : List Char) : Option Channel :=
  if s = "世界".toList then some .World
  else if s = "地图".toList then some .Region
  else if s = "GP".toList then some .Group
  else some .Common

/-- The total tag-to-channel mapping (`[世界]`→World, `[地图]`→Region,
`GP`→Group, anything else→Common), i.e. the value `Channel::from_str`
always succeeds with. -/
def tagChannel (s : List Char) : Channel :=
  if s = "世界".toList then .World
  else if s = "地图".toList then .Region
  else if s = "GP".toList then .Group
  else .Common

/-- A wall-clock time of day, modelling `chrono::NaiveTime` restricted to
whole seconds as produced by parsing with format `%H:%M:%S` (`s = 60` is the
leap-second case chrono accepts). -/
structure Time where
  h : Nat
  m : Nat
  s : Nat
deriving DecidableEq, Repr

/-- `NaiveTime` ordering: lexicographic on (hour, minute, second). -/
def Time.cmp (a b : Time) : Ordering :=
  (compare a.h b.h).then ((compare a.m b.m).then (compare a.s b.s))

/-- Scan one or two decimal digits (chrono parses numeric items with
minimum 1 and maximum 2 digits for `%H`, `%M`, `%S`). -/
def scanNum2 : List Char → Option (Nat × List Char)
  | [] => none
  | c :: t =>
    if c.isDigit then
      match t with
      | c2 :: t2 =>
        if c2.isDigit then some ((c.toNat - 48) * 10 + (c2.toNat - 48), t2)
        else some (c.toNat - 48, t)
      | [] => some (c.toNat - 48, [])
    else none

/-- Expect a literal character (chrono `Item::Literal`). -/
def expectChar (c : Char) : List Char → Option (List Char)
  | [] => none
  | x :: t => if x = c then some t else none

/-- Models `chrono::NaiveTime::parse_from_str(v, "%H:%M:%S")`: whitespace is
skipped before each numeric item, each field is 1-2 digits, the separators
are literal colons, the whole input must be consumed, and the ranges are
hour ≤ 23, minute ≤ 59, second ≤ 60 (60 = leap second). -/
def parseTime (v : List Char) : Option Time := do
  let (h, r1) ← scanNum2 (v.dropWhile isWS)
  let r2 ← expectChar ':' r1
  let (m, r3) ← scanNum2 (r2.dropWhile isWS)
  let r4 ← expectChar ':' r3
  let (s, r5) ← scanNum2 (r4.dropWhile isWS)
  if r5 = [] ∧ h ≤ 23 ∧ m ≤ 59 ∧ s ≤ 60 then some ⟨h, m, s⟩ else none

/-- Two-digit zero-padded decimal (chrono's `%H`/`%M`/`%S` formatting for
the values in range). -/
def pad2 (n : Nat) : List Char :=
  if n < 10 then ['0', Char.ofNat (48 + n)]
  else [Char.ofNat (48 + n / 10), Char.ofNat (48 + n % 10)]

/-- `Record::fmt_time` (src/chat/record.rs lines 70-72): format the record
time as `HH:MM:SS`. -/
def fmtTime (t : Time) : List Char := pad2 t.h ++ ':' :: pad2 t.m ++ ':' :: pad2 t.s

/-- A parsed chat record, from src/chat/record.rs (struct `Record`). -/
structure Record where
  time : Time
  channel : Channel
  message : List Char
deriving DecidableEq, Repr

/-- The field delimiter used by `Record::from`. -/
def sepChar : Char := '丂'

/-- The channel-extraction block of `Record::from` (src/chat/record.rs
lines 54-60): `channel` starts as `Common`; if the trimmed message starts
with `[`, the index of the first `]` (`find(...).unwrap_or(0)`) is taken,
and when it is positive the interior `message[1..index]` is classified via
`Channel::from_str` (whose `.ok()` never fails). -/
def channelOf (message : List Char) : Option Channel :=
  if message.headD ' ' = '[' then
    if (message.findIdx? (fun c => c = ']')).getD 0 > 0 then
      Channel.fromStrE
        ((message.drop 1).take ((message.findIdx? (fun c => c = ']')).getD 0 - 1))
    else some Channel.Common
  else some Channel.Common

/-- `Record::from` (src/chat/record.rs lines 45-66): reject
empty/whitespace-only lines; split at the first `丂`; parse the leading
field as a `%H:%M:%S` time; trim the remainder as the message; classify
the channel from the message's bracket tag. -/
def Record.fromLine (line : List Char) : Option Record :=
  if trim line = [] then none
  else
    let parts := splitFirst sepChar line
    do
      let time ← parseTime parts.1
      let raw ← parts.2
      let message := trim raw
      let channel ← channelOf message
      some ⟨time, channel, message⟩

/-- `Ord for Record` (src/chat/record.rs lines 97-101): records are compared
by time only. -/
def Record.cmp (a b : Record) : Ordering := Time.cmp a.time b.time

/-- One `BTreeSet::insert` step: keep the list sorted by `Record.cmp`; when
an element comparing equal is already present the set is left unchanged
(the existing element is retained). -/
def btreeInsert (x : Record) : List Record → List Record
  | [] => [x]
  | y :: t =>
    match Record.cmp x y with
    | .lt => x :: y :: t
    | .eq => y :: t
    | .gt => y :: btreeInsert x t

/-- `lines.iter().filter_map(|v| Record::from(v)).collect::<BTreeSet<_>>()`
(src/main.rs line 142): parse every line, discard failures, and collect
into a `BTreeSet` ordered (and de-duplicated) by `Record.cmp`; iteration of
the resulting set is in ascending order, i.e. the sorted list itself. -/
def collectRecords (lines : List (List Char)) : List Record :=
  (lines.filterMap Record.fromLine).foldl (fun s r => btreeInsert r s) []

/-! ## Regex model

The `regex` crate is an external dependency; it is modelled here on the
fragment of syntax the development needs: literal characters, numbered
capturing groups `( … )`, and the greedy `?` quantifier on an atom.
Compilation fails on malformed patterns (unbalanced groups, dangling
quantifiers, stray metacharacters), as `Regex::new` does.  Matching is
unanchored leftmost-first search, as in the crate. -/

/-- Regex abstract syntax (the fragment used here). -/
inductive Re where
  | empty
  | lit (c : Char)
  | seq (a b : Re)
  | opt (r : Re)
  | group (idx : Nat) (r : Re)
deriving DecidableEq, Repr

/-- Metacharacters that the modelled parser refuses as bare literals. -/
def isMeta (c : Char) : Bool :=
  c = '(' ∨ c = ')' ∨ c = '?' ∨ c = '*' ∨ c = '+' ∨ c = '[' ∨ c = ']' ∨
  c = '\\' ∨ c = '|' ∨ c = '^' ∨ c = '$' ∨ c = Char.ofNat 123 ∨ c = Char.ofNat 125

/-- Attach a greedy `?` to the preceding atom when present. -/
def applyOpt (node : Re) : List Char → Re × List Char
  | '?' :: rest => (.opt node, rest)
  | s => (node, s)

/-- Fuelled recursive-descent parser for the regex fragment.  Parses a
sequence up to a closing `)` or the end of input; `g` numbers capturing
groups in order of their opening parenthesis, starting at 1.  Returns the
parsed tree, the unconsumed input, and the next group number. -/
def parseSeqF : Nat → List Char → Nat → Option (Re × List Char × Nat)
  | 0, _, _ => none
  | fuel + 1, s, g =>
    match s with
    | [] => some (.empty, [], g)
    | ')' :: _ => some (.empty, s, g)
    | '(' :: rest => do
      let (inner, rest2, g2) ← parseSeqF fuel rest (g + 1)
      match rest2 with
      | ')' :: rest3 =>
        let n2 := applyOpt (.group g inner) rest3
        let (tail, rest5, g3) ← parseSeqF fuel n2.2 g2
        some (.seq n2.1 tail, rest5, g3)
      | _ => none
    | c :: rest =>
      if isMeta c then none
      else do
        let n2 := applyOpt (.lit c) rest
        let (tail, rest3, g2) ← parseSeqF fuel n2.2 g
        some (.seq n2.1 tail, rest3, g2)

/-- Models `Regex::new`: compile the pattern or fail.  On success also
returns the number of capture slots (`caps.len()` = groups + 1). -/
def regexNew (pat : List Char) : Option (Re × Nat) :=
  match parseSeqF (pat.length + 1) pat 1 with
  | some (re, [], g) => some (re, g)
  | _ => none

/-- Backtracking matcher: all ways `r` can match a prefix of `s`, in
preference order (greedy first); each result is the remaining input and the
captured (group, text) pairs. -/
def matchRe : Re → List Char → List (List Char × List (Nat × List Char))
  | .empty, s => [(s, [])]
  | .lit c, s =>
    match s with
    | [] => []
    | x :: xs => if x = c then [(xs, [])] else []
  | .seq a b, s =>
    (matchRe a s).flatMap fun p => (matchRe b p.1).map fun q => (q.1, p.2 ++ q.2)
  | .opt r, s => matchRe r s ++ [(s, [])]
  | .group i r, s =>
    (matchRe r s).map fun p => (p.1, (i, s.take (s.length - p.1.length)) :: p.2)

/-- Unanchored leftmost search: try each start position in order and take
the first (most preferred) match; returns the whole matched text and the
group captures. -/
def searchFuel (re : Re) : Nat → List Char → Option (List Char × List (Nat × List Char))
  | 0, _ => none
  | fuel + 1, s =>
    match (matchRe re s).head? with
    | some p => some (s.take (s.length - p.1.length), p.2)
    | none =>
      match s with
      | [] => none
      | _ :: t => searchFuel re fuel t

/-- Unanchored leftmost search (the fuel `s.length + 1` covers every start
position including the empty suffix). -/
def searchRe (re : Re) (s : List Char) : Option (List Char × List (Nat × List Char)) :=
  searchFuel re (s.length + 1) s

/-- A trigger rule, from src/config.rs (struct `Trigger`): the regex is
stored as a plain string. -/
structure Trigger where
  regex : List Char
  format : List Char
  channel : List Char
  notifier : List (List Char)
deriving DecidableEq, Repr

/-- The loop body of `Trigger::try_match` (src/config.rs lines 121-125):
iterate `i` over `0..caps.len()` and push `caps.get(i)` only when it is
`Some`, i.e. keep the participating capture values in order. -/
def collectCaps (caps : List (Option (List Char))) : List (List Char) :=
  caps.filterMap id

/-- `Trigger::try_match` (src/config.rs lines 117-130): compile the stored
regex at match time — `Regex::new(&self.regex).unwrap()` panics on an
invalid pattern, modelled as `Except.error` — then search the text; on a
match, collect the participating capture values (group 0 first). -/
def Trigger.tryMatchE (t : Trigger) (text : List Char) :
    Except Unit (Option (List (List Char))) :=
  match regexNew t.regex with
  | none => .error ()
  | some (re, ng) =>
    match searchRe re text with
    | none => .ok none
    | some (whole, cs) =>
      .ok (some (collectCaps
        (some whole :: (List.range (ng - 1)).map fun j => cs.lookup (j + 1))))

/-- Left-to-right non-overlapping replacement scan (fuelled; each step
consumes at least one character of `s` when `pat` is nonempty). -/
def replaceFuel (pat rep : List Char) : Nat → List Char → List Char
  | 0, s => s
  | fuel + 1, s =>
    if pat.isPrefixOf s then rep ++ replaceFuel pat rep fuel (s.drop pat.length)
    else
      match s with
      | [] => []
      | c :: t => c :: replaceFuel pat rep fuel t

/-- Models `str::replace`: replace every non-overlapping occurrence of
`pat` in `s` by `rep`, scanning left to right.  (The empty-pattern case is
never exercised: every pattern used is a nonempty placeholder.) -/
def replaceAll (s pat rep : List Char) : List Char :=
  if pat = [] then s else replaceFuel pat rep (s.length + 1) s

/-- The placeholder text for index `i`, i.e. `format!("\x7b{}\x7d", i)`. -/
def placeholderOf (i : Nat) : List Char :=
  Char.ofNat 123 :: Nat.toDigits 10 i ++ [Char.ofNat 125]

/-- `Trigger::format` (src/config.rs lines 132-138): starting from the
template, for each `(i, m)` in `matched.iter().enumerate()` replace the
placeholder for `i` by `m` — the substitutions are applied sequentially,
each on the result of the previous one. -/
def Trigger.formatT (fmt : List Char) (matched : List (List Char)) : List Char :=
  matched.enum.foldl (fun acc im => replaceAll acc (placeholderOf im.1) im.2) fmt

/-- `Trigger::accept` (src/config.rs lines 140-148): lower-case the rule's
channel string; a recognized name accepts exactly that channel, anything
else accepts all.  (Rust's `to_lowercase` is modelled by `Char.toLower`,
adequate for the ASCII channel names involved.) -/
def Trigger.accept (t : Trigger) (c : Channel) : Bool :=
  let s := t.channel.map Char.toLower
  if s = "world".toList then c = Channel.World
  else if s = "group".toList then c = Channel.Group
  else if s = "region".toList then c = Channel.Region
  else if s = "common".toList then c = Channel.Common
  else true

/-- The alert text for one firing rule (src/main.rs line 152):
`nc.format(&matched).replace("\x7btime\x7d", &record.fmt_time())`. -/
def alertText (t : Trigger) (r : Record) (matched : List (List Char)) : List Char :=
  replaceAll (Trigger.formatT t.format matched) "{time}".toList (fmtTime r.time)

/-- The inner trigger loop of `try_notify` (src/main.rs lines 147-171) for
one record: rules are evaluated only when the record's channel is `Common`;
each rule is matched with `try_match` (whose unwrap panic propagates) and a
match contributes its formatted alert text.  `Trigger::accept` is never
consulted.  Notifier dispatch (thread spawning) is outside the model; the
produced alert texts are collected in order. -/
def recordAlerts (triggers : List Trigger) (r : Record) :
    Except Unit (List (List Char)) :=
  if r.channel = Channel.Common then
    triggers.foldlM
      (fun acc t =>
        match Trigger.tryMatchE t r.message with
        | .error e => .error e
        | .ok none => .ok acc
        | .ok (some matched) => .ok (acc ++ [alertText t r matched]))
      []
  else .ok []

/-- `try_notify` (src/main.rs lines 141-174): parse and collect the batch
into the de-duplicated, time-ordered record set, then evaluate every
trigger against each record in ascending order, collecting the alert texts
that would be dispatched. -/
def tryNotify (triggers : List Trigger) (lines : List (List Char)) :
    Except Unit (List (List Char)) :=
  (collectRecords lines).foldlM
    (fun acc r => do
      let a ← recordAlerts triggers r
      pure (acc ++ a))
    []

/-- The model of `Config` restricted to the fields the claims touch
(src/config.rs lines 59-64); the trigger list stores each rule's regex as
the raw configuration string. -/
structure Config where
  trigger : List Trigger
deriving DecidableEq, Repr

/-- Models `Config::parse` / `Config::load` (src/config.rs lines 151-160):
TOML deserialization (external `toml`/`serde`) checks only the structural
shape of the file; each trigger's `regex` field is read as a plain string
and no regex compilation or validation happens at load time, so any
structurally well-formed trigger list loads successfully. -/
def Config.parseModel (ts : List Trigger) : Except (List Char) Config :=
  .ok ⟨ts⟩

/-! ## File tailer model

The directory is modelled as an association list from file name to decoded
file content; offsets count in the same units as the content. -/

/-- A watched directory: file names with their (decoded) contents. -/
abbrev FileSys := List (List Char × List Char)

/-- The file-name filter `^chat_\d{6}\.txt$` (src/main.rs lines 51-53). -/
def isChatFile (n : List Char) : Bool :=
  n.length = 15 ∧ n.take 5 = "chat_".toList ∧
  ((n.drop 5).take 6).all Char.isDigit ∧ n.drop 11 = ".txt".toList

/-- Byte-wise lexicographic order on file names (how `OsString` compares
the ASCII names involved). -/
def lexLt : List Char → List Char → Bool
  | [], [] => false
  | [], _ :: _ => true
  | _ :: _, [] => false
  | a :: x, b :: y => if a = b then lexLt x y else decide (a < b)

/-- `find_file` (src/main.rs lines 103-120): keep the entries whose name
matches the chat-file pattern, sort by `Reverse(file_name)` and take the
first, i.e. return the greatest matching name. -/
def findFile (fs : FileSys) : Option (List Char) :=
  ((fs.map Prod.fst).filter isChatFile).foldl
    (fun best n =>
      match best with
      | none => some n
      | some b => if lexLt b n then some n else some b)
    none

/-- Strip one trailing carriage return (`BufRead::lines` removes a final
`\r\n` or `\n`). -/
def stripCR (l : List Char) : List Char :=
  match l.getLast? with
  | some c => if c = '\r' then l.dropLast else l
  | none => l

/-- Accumulating splitter for `BufRead::lines`: split at every `\n`; a
final nonempty fragment with no terminator is still yielded as a line. -/
def splitLinesAux : List Char → List Char → List (List Char)
  | [], acc => if acc.isEmpty then [] else [stripCR acc.reverse]
  | c :: rest, acc =>
    if c = '\n' then stripCR acc.reverse :: splitLinesAux rest []
    else splitLinesAux rest (c :: acc)

/-- Models `BufRead::lines` on the decoded stream. -/
def splitLines (s : List Char) : List (List Char) := splitLinesAux s []

/-- `read` (src/main.rs lines 122-139) on an opened file's decoded content:
seek to `offset` (seeking past end of file is allowed and leaves the
position there), drain every remaining line — including a final
unterminated fragment — and report `stream_position()` afterwards, which is
the end of the file (or the seek position when it was past the end). -/
def readFile (content : List Char) (offset : Nat) : List (List Char) × Nat :=
  (splitLines (content.drop offset), max offset content.length)

/-- `read` including `File::open` (src/main.rs line 124): opening a path
that is not in the directory fails with an I/O error. -/
def readF (fs : FileSys) (name : List Char) (offset : Nat) :
    Except (List Char) (List (List Char) × Nat) :=
  match fs.lookup name with
  | none => .error "NotFound".toList
  | some content => .ok (readFile content offset)

/-- The tailer's mutable state (src/main.rs lines 54-56): the tracked chat
file and the byte offset cursor. -/
structure TailState where
  chatFile : Option (List Char)
  offset : Nat
deriving DecidableEq, Repr

/-- The file-selection step of a Modify event (src/main.rs lines 71-80):
when the event path differs from the tracked file (or no file is tracked),
re-scan the directory; otherwise keep the tracked file. -/
def selectFile (fs : FileSys) (st : TailState) (evPath : List Char) : Option (List Char) :=
  match st.chatFile with
  | some f => if evPath = f then some f else findFile fs
  | none => findFile fs

/-- The Modify branch of the main event loop (src/main.rs lines 70-90):
select the active file, then read it from the stored offset and commit the
returned position.  The offset is never reset when the active file
changes, and a read error propagates out of the loop (the `?` operator in
`main`) instead of being caught.  Returns the new state and the lines
handed to `try_notify`. -/
def onModify (fs : FileSys) (st : TailState) (evPath : List Char) :
    Except (List Char) (TailState × List (List Char)) :=
  match selectFile fs st evPath with
  | some f =>
    match readF fs f st.offset with
    | .ok lp => .ok (⟨some f, lp.2⟩, lp.1)
    | .error e => .error e
  | none => .ok (⟨none, st.offset⟩, [])

/-! ## Spec-side comparison definitions -/

/-- Modelled from the claim wording (C10): a *simultaneous* substitution of
the original template — scan the template once, replacing each placeholder
occurrence by the corresponding captured value, without re-scanning the
inserted text. -/
def simulFuel (matched : List (List Char)) : Nat → List Char → List Char
  | 0, s => s
  | fuel + 1, [] => let _ := fuel; []
  | fuel + 1, c :: t =>
    match matched.enum.find? (fun im => (placeholderOf im.1).isPrefixOf (c :: t)) with
    | some im => im.2 ++ simulFuel matched fuel ((c :: t).drop (placeholderOf im.1).length)
    | none => c :: simulFuel matched fuel t

/-- Simultaneous substitution of the original template (spec-words model
used only to contrast with the sequential `Trigger.formatT`). -/
def formatSimultaneous (fmt : List Char) (matched : List (List Char)) : List Char :=
  simulFuel matched (fmt.length + 1) fmt

/-- Modelled from the claim wording (C8): the interior of a bracket tag
"cannot be classified" when it is none of the three recognized tags. -/
def tagUnclassifiable (s : List Char) : Bool :=
  ¬ (s = "世界".toList ∨ s = "地图".toList ∨ s = "GP".toList)

/-- Modelled from the claim wording (C8): a bracketed channel tag is
present but its closing bracket is missing or its interior cannot be
classified. -/
def c8BadTag (message : List Char) : Bool :=
  decide (message.headD ' ' = '[') &&
  (match message.findIdx? (fun c => c = ']') with
   | none => true
   | some i => tagUnclassifiable ((message.drop 1).take (i - 1)))

/-- A trigger whose regex is syntactically invalid (`Regex::new` fails on
the unbalanced `(`). -/
def badRegexTrigger : Trigger :=
  ⟨"(".toList, "x".toList, "any".toList, []⟩

/-- Modelled from the claim wording (C8): the claimed exact condition for
`parse` to return no record. -/
def c8ClaimCond (line : List Char) : Bool :=
  decide (trim line = []) || decide ((splitFirst sepChar line).2 = none) ||
  decide (parseTime (splitFirst sepChar line).1 = none) ||
  (match (splitFirst sepChar line).2 with
   | none => false
   | some raw => c8BadTag (trim raw))

end Cgaid

namespace Cgaid

/-! ## Helper lemmas -/

theorem fromStrE_eq_some (s : List Char) :
    Channel.fromStrE s = some (tagChannel s) := by
  unfold Channel.fromStrE tagChannel
  repeat (first | rfl | split)

theorem channelOf_exists (m : List Char) : ∃ c, channelOf m = some c := by
  unfold channelOf
  split
  · split
    · exact ⟨_, fromStrE_eq_some _⟩
    · exact ⟨.Common, rfl⟩
  · exact ⟨.Common, rfl⟩


theorem splitFirst_append (sep : Char) (pre rest : List Char) (h : sep ∉ pre) :
    splitFirst sep (pre ++ sep :: rest) = (pre, some rest) := by
  induction pre with
  | nil => simp [splitFirst]
  | cons c t ih =>
    have hc : c ≠ sep := fun he => h (he ▸ List.mem_cons_self c t)
    have ht : sep ∉ t := fun hm => h (List.mem_cons_of_mem c hm)
    simp [splitFirst, hc, ih ht]

theorem mem_dropWhile_of_nonsat {p : Char → Bool} {c : Char} {l : List Char}
    (hm : c ∈ l) (hc : p c = false) : c ∈ l.dropWhile p := by
  have := List.takeWhile_append_dropWhile (p := p) (l := l)
  rcases List.mem_append.mp (this ▸ hm) with h1 | h2
  · exact absurd (List.mem_takeWhile_imp h1) (by simp [hc])
  · exact h2

theorem mem_trim {c : Char} {l : List Char} (hm : c ∈ l) (hc : isWS c = false) :
    c ∈ trim l := by
  unfold trim trimR trimL
  have h1 : c ∈ l.dropWhile isWS := mem_dropWhile_of_nonsat hm hc
  have h2 : c ∈ (l.dropWhile isWS).reverse := List.mem_reverse.mpr h1
  have h3 : c ∈ (l.dropWhile isWS).reverse.dropWhile isWS :=
    mem_dropWhile_of_nonsat h2 hc
  exact List.mem_reverse.mpr h3

theorem trim_ne_nil {c : Char} {l : List Char} (hm : c ∈ l) (hc : isWS c = false) :
    trim l ≠ [] := by
  intro he
  exact absurd (he ▸ mem_trim hm hc) (List.not_mem_nil c)

theorem dropWhile_append_cons (p : Char → Bool) (X : List Char) (d : Char)
    (Y : List Char) (hd : p d = false) :
    (X ++ d :: Y).dropWhile p = X.dropWhile p ++ d :: Y := by
  induction X with
  | nil => simp [List.dropWhile, hd]
  | cons x t ih =>
    by_cases hx : p x
    · simp [List.dropWhile, hx, ih]
    · simp [List.dropWhile, hx]

theorem trimR_append_cons (A : List Char) (d : Char) (C : List Char)
    (hd : isWS d = false) : trimR (A ++ d :: C) = A ++ d :: trimR C := by
  unfold trimR
  rw [show (A ++ d :: C).reverse = C.reverse ++ d :: A.reverse by simp]
  rw [dropWhile_append_cons isWS C.reverse d A.reverse hd]
  simp

theorem trim_bracket_decomp (tag msg : List Char) :
    trim ('[' :: tag ++ ']' :: ' ' :: msg) =
      '[' :: tag ++ ']' :: trimR (' ' :: msg) := by
  have hl : isWS '[' = false := by decide
  have hr : isWS ']' = false := by decide
  unfold trim
  have h1 : trimL ('[' :: tag ++ ']' :: ' ' :: msg) = '[' :: tag ++ ']' :: ' ' :: msg := by
    unfold trimL
    simp [List.cons_append, List.dropWhile_cons, hl]
  rw [h1]
  exact trimR_append_cons ('[' :: tag) ']' (' ' :: msg) hr

theorem findIdx?_prefix (p : Char → Bool) (X : List Char) (d : Char) (Y : List Char)
    (hX : ∀ x ∈ X, p x = false) (hd : p d = true) :
    ∀ i : Nat, List.findIdx? p (X ++ d :: Y) i = some (X.length + i) := by
  induction X with
  | nil => intro i; simp [List.findIdx?_cons, hd]
  | cons x t ih =>
    intro i
    have hx : p x = false := hX x (List.mem_cons_self x t)
    have ht : ∀ y ∈ t, p y = false := fun y hy => hX y (List.mem_cons_of_mem x hy)
    rw [List.cons_append, List.findIdx?_cons, hx]
    simp only [Bool.false_eq_true, if_false]
    rw [ih ht (i + 1)]
    congr 1
    simp only [List.length_cons]
    omega

theorem channelOf_bracket (tag R : List Char) (htag : ']' ∉ tag) :
    channelOf ('[' :: tag ++ ']' :: R) = some (tagChannel tag) := by
  have hfind : List.findIdx? (fun c => decide (c = ']')) (('[' :: tag) ++ ']' :: R) 0 =
      some (tag.length + 1) := by
    have hX : ∀ x ∈ '[' :: tag, decide (x = ']') = false := by
      intro x hx
      rcases List.mem_cons.mp hx with h | h
      · subst h; decide
      · simp only [decide_eq_false_iff_not]
        intro he
        exact htag (he ▸ h)
    have := findIdx?_prefix (fun c => decide (c = ']')) ('[' :: tag) ']' R hX (by decide) 0
    simpa using this
  unfold channelOf
  have hhead : (('[' :: tag) ++ ']' :: R).headD ' ' = '[' := rfl
  rw [hhead, if_pos rfl, hfind]
  have hpos : (some (tag.length + 1)).getD 0 > 0 := by simp
  rw [if_pos hpos]
  have hdrop : (('[' :: tag) ++ ']' :: R).drop 1 = tag ++ ']' :: R := rfl
  have htake : (tag ++ ']' :: R).take ((some (tag.length + 1)).getD 0 - 1) = tag := by
    simp [List.take_left tag (']' :: R)]
  rw [hdrop, htake]
  exact fromStrE_eq_some tag

theorem splitLinesAux_no_newline (s : List Char) (hnl : ∀ c ∈ s, c ≠ '\n') :
    ∀ acc : List Char, acc ≠ [] ∨ s ≠ [] →
      splitLinesAux s acc = [stripCR (acc.reverse ++ s)] := by
  induction s with
  | nil =>
    intro acc hne
    have hacc : acc ≠ [] := by
      rcases hne with h | h
      · exact h
      · exact absurd rfl h
    simp [splitLinesAux, hacc]
  | cons c t ih =>
    intro acc _
    have hc : c ≠ '\n' := hnl c (List.mem_cons_self c t)
    have ht : ∀ x ∈ t, x ≠ '\n' := fun x hx => hnl x (List.mem_cons_of_mem c hx)
    have : splitLinesAux (c :: t) acc = splitLinesAux t (c :: acc) := by
      simp [splitLinesAux, hc]
    rw [this, ih ht (c :: acc) (Or.inl (by simp))]
    simp

/-! ## Claim theorems -/

/-- C1 (code_bug): the claim says that on rotation the tailer resets the
offset to 0 before the next read, so the new file's content is read from
its beginning.  The code never resets `offset`: after a modify event whose
path differs from the tracked file, `find_file` switches to the newer
`chat_000002.txt` but the read still starts at the stale offset 6, past the
end of the 3-character new file, so nothing is delivered and the offset
stays 6 — whereas a read from offset 0 would have delivered the line `hi`
and committed offset 3. -/
theorem c1_rotation_keeps_stale_offset :
    onModify
      [("chat_000001.txt".toList, "old123".toList), ("chat_000002.txt".toList, "hi\n".toList)]
      ⟨some "chat_000001.txt".toList, 6⟩ "chat_000002.txt".toList =
      .ok (⟨some "chat_000002.txt".toList, 6⟩, []) ∧
    readFile "hi\n".toList 0 = (["hi".toList], 3) := by decide

/-- C2 (code_bug): the claim says deduplication collapses only fully equal
records and keeps two distinct records that share a timestamp.  Because
`Ord for Record` compares by time only and the `BTreeSet` keys on that
ordering, two distinct well-formed records with the same time but different
messages collapse to the first one: the batch below parses to two different
records yet `collectRecords` keeps only one. -/
theorem c2_dedupe_collapses_distinct_same_time :
    Record.fromLine "12:00:00丂alpha".toList =
      some ⟨⟨12, 0, 0⟩, .Common, "alpha".toList⟩ ∧
    Record.fromLine "12:00:00丂beta".toList =
      some ⟨⟨12, 0, 0⟩, .Common, "beta".toList⟩ ∧
    (⟨⟨12, 0, 0⟩, .Common, "alpha".toList⟩ : Record) ≠
      ⟨⟨12, 0, 0⟩, .Common, "beta".toList⟩ ∧
    collectRecords ["12:00:00丂alpha".toList, "12:00:00丂beta".toList] =
      [⟨⟨12, 0, 0⟩, .Common, "alpha".toList⟩] := by decide

/-- C3 (code_bug): the claim says a rule whose channel field is `"world"`
never produces an alert for a Common record.  `try_notify` never consults
`Trigger::accept`: the pipeline evaluates every rule against every Common
record, so the world rule below fires on a Common record and produces an
alert, even though `accept` itself rejects the Common channel. -/
theorem c3_world_rule_fires_on_common :
    tryNotify [⟨"hello".toList, "alert".toList, "world".toList, []⟩]
      ["12:00:00丂hello".toList] = .ok ["alert".toList] ∧
    Trigger.accept ⟨"hello".toList, "alert".toList, "world".toList, []⟩ Channel.Common =
      false ∧
    (Record.fromLine "12:00:00丂hello".toList).map Record.channel =
      some Channel.Common := by decide

/-- C4 counterexample: the claim says an unmatched optional group leaves
its placeholder unexpanded rather than shifting later groups onto earlier
indices.  For pattern `(a)(b)?(c)` on `ac`, group 2 does not participate,
so `try_match` returns the compacted list `[ac, a, c]` and the template
`{2}|{3}` formats to `c|{3}` — `{2}` receives group 3's value — instead of
the claimed `{2}|c`. -/
theorem c4_counterexample_group_shift :
    Trigger.tryMatchE ⟨"(a)(b)?(c)".toList, "{2}|{3}".toList, "any".toList, []⟩
      "ac".toList = .ok (some ["ac".toList, "a".toList, "c".toList]) ∧
    Trigger.formatT "{2}|{3}".toList ["ac".toList, "a".toList, "c".toList] =
      "c|{3}".toList ∧
    "c|{3}".toList ≠ "{2}|c".toList := by decide

/-- C4 amended: the match produces the ordered sequence of the capture
groups that participated (group 0 included); `{i}` is replaced by the i-th
participating value, so an unmatched optional group shifts later groups'
values onto earlier placeholder indices and the highest indices stay
literal; only when every group participates is `{i}` the i-th group by
position. -/
theorem c4_amended_compacted_captures :
    (∀ v0 v1 v3 : List Char,
      collectCaps [some v0, some v1, none, some v3] = [v0, v1, v3]) ∧
    Trigger.tryMatchE ⟨"(a)(b)(c)".toList, [], [], []⟩ "abc".toList =
      .ok (some ["abc".toList, "a".toList, "b".toList, "c".toList]) ∧
    Trigger.formatT "{1}-{3}".toList
      ["abc".toList, "a".toList, "b".toList, "c".toList] = "a-c".toList ∧
    Trigger.tryMatchE ⟨"(a)(b)?(c)".toList, [], [], []⟩ "ac".toList =
      .ok (some ["ac".toList, "a".toList, "c".toList]) :=
  ⟨fun _ _ _ => rfl, by decide, by decide, by decide⟩

/-- C5 counterexample: the claim says an invalid regex is surfaced as a
configuration error at load time and never deferred to match time.  A
config whose only trigger has the invalid pattern `(` loads successfully
(`Config::load` performs no regex validation), and the failure only occurs
inside `try_match`, where `Regex::new(..).unwrap()` panics. -/
theorem c5_counterexample_load_accepts_bad_regex :
    Config.parseModel [badRegexTrigger] = .ok ⟨[badRegexTrigger]⟩ ∧
    regexNew badRegexTrigger.regex = none ∧
    Trigger.tryMatchE badRegexTrigger "anytext".toList = .error () := by decide

/-- C5 amended: `Config::load` performs no regex validation — it accepts
every structurally well-formed trigger list — and a trigger whose regex
fails to compile causes `try_match`'s unwrap panic at the first match
attempt. -/
theorem c5_amended_match_time_panic :
    (∀ ts : List Trigger, Config.parseModel ts = .ok ⟨ts⟩) ∧
    (∀ (t : Trigger) (text : List Char), regexNew t.regex = none →
      Trigger.tryMatchE t text = .error ()) := by
  constructor
  · intro ts
    rfl
  · intro t text h
    unfold Trigger.tryMatchE
    rw [h]

/-- Witness for C5 amended: the invalid trigger compiles to `none` and its
match attempt is the modelled panic. -/
theorem c5_amended_witness :
    regexNew badRegexTrigger.regex = none ∧
    Trigger.tryMatchE badRegexTrigger "z".toList = .error () :=
  ⟨by decide, c5_amended_match_time_panic.2 badRegexTrigger "z".toList (by decide)⟩

/-- C6 counterexample: the claim says a transient read error is logged and
the loop continues.  When the tracked file disappears before the read, the
`File::open` error propagates out of the loop body via `?` (the modelled
`Except.error`), terminating `main` instead of continuing. -/
theorem c6_counterexample_read_error_terminates :
    onModify [] ⟨some "chat_000001.txt".toList, 5⟩ "chat_000001.txt".toList =
      .error "NotFound".toList := by decide

/-- C6 amended: a read/seek failure during tailing is not caught: it
propagates out of the loop body (the `?` in `main`) and terminates the
process — only watcher-channel errors are logged and continued.  The
offset is committed only by a successful read: every continuing state
either left the offset untouched (no active file) or carries exactly the
position returned by a successful read of the selected file. -/
theorem c6_amended_error_propagates :
    (∀ (fs : FileSys) (st : TailState) (p f : List Char),
      selectFile fs st p = some f → fs.lookup f = none →
      onModify fs st p = .error "NotFound".toList) ∧
    (∀ (fs : FileSys) (st : TailState) (p : List Char) (st2 : TailState)
        (ls : List (List Char)),
      onModify fs st p = .ok (st2, ls) →
      (st2.chatFile = none ∧ st2.offset = st.offset ∧ ls = []) ∨
      (∃ f content, st2.chatFile = some f ∧ fs.lookup f = some content ∧
        (ls, st2.offset) = readFile content st.offset)) := by
  constructor
  · intro fs st p f hsel hlook
    simp only [onModify, readF, hsel, hlook]
  · intro fs st p st2 ls h
    rcases hsel : selectFile fs st p with _ | f
    · simp only [onModify, readF, hsel, Except.ok.injEq, Prod.mk.injEq] at h
      rcases h with ⟨h1, h2⟩
      exact Or.inl (by rw [← h1, ← h2]; exact ⟨rfl, rfl, rfl⟩)
    · rcases hlook : fs.lookup f with _ | content
      · simp only [onModify, readF, hsel, hlook] at h
        exact Except.noConfusion h
      · simp only [onModify, readF, hsel, hlook, Except.ok.injEq, Prod.mk.injEq] at h
        rcases h with ⟨h1, h2⟩
        refine Or.inr ⟨f, content, ?_, hlook, ?_⟩
        · rw [← h1]
        · rw [← h1, ← h2]

/-- Witness for C6 amended: a concrete modify event whose tracked file is
missing makes the loop body terminate with the propagated error. -/
theorem c6_amended_witness :
    onModify [] ⟨some "chat_000009.txt".toList, 7⟩ "chat_000009.txt".toList =
      .error "NotFound".toList :=
  c6_amended_error_propagates.1 [] ⟨some "chat_000009.txt".toList, 7⟩
    "chat_000009.txt".toList "chat_000009.txt".toList (by decide) (by decide)

/-- C7 counterexample: the claim says a final line with no terminator is
not returned and the offset does not advance past it.  Reading a file whose
whole content is the unterminated fragment `ab` returns the fragment as a
line and commits offset 2 (the end of file), not `([], 0)`. -/
theorem c7_counterexample_partial_line_returned :
    readFile "ab".toList 0 = (["ab".toList], 2) ∧
    ((["ab".toList], 2) : List (List Char) × Nat) ≠ ([], 0) := by decide

/-- C7 amended: `BufRead::lines` yields the final unterminated fragment,
so a partially written last line is returned in the same batch and the
committed offset advances to the end of the file, past the fragment. -/
theorem c7_amended_partial_line :
    ∀ frag : List Char, frag ≠ [] → (∀ c ∈ frag, c ≠ '\n') →
      readFile frag 0 = ([stripCR frag], frag.length) := by
  intro frag hne hnl
  unfold readFile
  rw [List.drop_zero]
  have hs : splitLines frag = [stripCR frag] := by
    unfold splitLines
    have h := splitLinesAux_no_newline frag hnl [] (Or.inr hne)
    simpa using h
  rw [hs]
  simp

/-- Witness for C7 amended: the two-character unterminated fragment is
returned whole with the offset at end of file. -/
theorem c7_amended_witness :
    readFile "ab".toList 0 = ([stripCR "ab".toList], ("ab".toList).length) :=
  c7_amended_partial_line "ab".toList (by decide) (by decide)

/-- C8 counterexample: the claim says parsing returns no record when a
bracketed tag's closing bracket is missing.  The line below has such a
malformed tag, satisfies the claimed failure condition, yet parses to a
Common-channel record, refuting the claimed equivalence. -/
theorem c8_counterexample_malformed_tag_parses :
    Record.fromLine "12:34:56丂[世界 x".toList =
      some ⟨⟨12, 34, 56⟩, .Common, "[世界 x".toList⟩ ∧
    c8ClaimCond "12:34:56丂[世界 x".toList = true ∧
    ¬ (Record.fromLine "12:34:56丂[世界 x".toList = none ↔
        c8ClaimCond "12:34:56丂[世界 x".toList = true) := by decide

/-- C8 amended: `parse` returns no record exactly when the line is
empty/whitespace-only, when the leading field fails to parse as a
`HH:MM:SS` time, or when no delimiter is present; a malformed or
unclassifiable bracket tag never causes failure (the channel falls back to
Common). -/
theorem c8_amended_none_iff :
    ∀ line : List Char,
      Record.fromLine line = none ↔
        (trim line = [] ∨ parseTime (splitFirst sepChar line).1 = none ∨
          (splitFirst sepChar line).2 = none) := by
  intro line
  by_cases htr : trim line = []
  · simp [Record.fromLine, htr]
  · rcases hpt : parseTime (splitFirst sepChar line).1 with _ | t
    · simp [Record.fromLine, htr, hpt]
    · rcases hp2 : (splitFirst sepChar line).2 with _ | raw
      · simp [Record.fromLine, htr, hpt, hp2]
      · obtain ⟨c, hc⟩ := channelOf_exists (trim raw)
        simp [Record.fromLine, htr, hpt, hp2, hc]

/-- C9: for every well-formed line `<time>丂[<tag>] <msg>` (the time field
parses, contains no delimiter, and the tag contains no `]`), parsing
yields a record whose time is the parsed time, whose channel is the fixed
tag mapping (`[世界]`→World, `[地图]`→Region, `GP`→Group, anything
else→Common), and whose message is the trimmed remainder of the line
including the bracket tag. -/
theorem c9_wellformed_parse :
    ∀ (ts : List Char) (t : Time) (tag msg : List Char),
      parseTime ts = some t → sepChar ∉ ts → ']' ∉ tag →
      Record.fromLine (ts ++ sepChar :: ('[' :: tag ++ ']' :: ' ' :: msg)) =
        some ⟨t, tagChannel tag, trim ('[' :: tag ++ ']' :: ' ' :: msg)⟩ := by
  intro ts t tag msg hpt hsep htag
  have hsplit :
      splitFirst sepChar (ts ++ sepChar :: ('[' :: tag ++ ']' :: ' ' :: msg)) =
        (ts, some ('[' :: tag ++ ']' :: ' ' :: msg)) :=
    splitFirst_append sepChar ts _ hsep
  have hne : trim (ts ++ sepChar :: ('[' :: tag ++ ']' :: ' ' :: msg)) ≠ [] := by
    apply trim_ne_nil (c := sepChar)
    · exact List.mem_append.mpr (Or.inr (List.mem_cons_self _ _))
    · decide
  have hmsg : trim ('[' :: tag ++ ']' :: ' ' :: msg) =
      '[' :: tag ++ ']' :: trimR (' ' :: msg) := trim_bracket_decomp tag msg
  have hch : channelOf ('[' :: tag ++ ']' :: trimR (' ' :: msg)) =
      some (tagChannel tag) := channelOf_bracket tag _ htag
  unfold Record.fromLine
  rw [if_neg hne]
  simp only [List.cons_append] at hsplit hmsg hch ⊢
  simp [hsplit, hpt, hmsg, hch]

/-- Witness for C9: the repository's own sample line `12:34:56丂[世界] 你好`. -/
theorem c9_wellformed_parse_witness :
    Record.fromLine
        ("12:34:56".toList ++ sepChar :: ('[' :: "世界".toList ++ ']' :: ' ' :: "你好".toList)) =
      some ⟨⟨12, 34, 56⟩, tagChannel "世界".toList,
        trim ('[' :: "世界".toList ++ ']' :: ' ' :: "你好".toList)⟩ :=
  c9_wellformed_parse "12:34:56".toList ⟨12, 34, 56⟩ "世界".toList "你好".toList
    (by decide) (by decide) (by decide)

/-- C10: `Trigger::format` substitutes placeholders sequentially in index
order, each replacement applied to the already-substituted string: when
the value bound to `{0}` itself contains `{1}`, the inserted text is
rewritten by the next iteration, so the result differs from a simultaneous
substitution of the original template. -/
theorem c10_sequential_substitution :
    Trigger.formatT "{0}".toList ["X{1}Y".toList, "Z".toList] = "XZY".toList ∧
    formatSimultaneous "{0}".toList ["X{1}Y".toList, "Z".toList] = "X{1}Y".toList ∧
    Trigger.formatT "{0}".toList ["X{1}Y".toList, "Z".toList] ≠
      formatSimultaneous "{0}".toList ["X{1}Y".toList, "Z".toList] := by decide

end Cgaid
